import Mathlib

/-
Verification development for the Probability teaching repository
(files Distribution.py and Die.py). The Python code is shallowly
embedded: Python ints become ℤ, Python floats become exact rationals
or reals, the global random source becomes an explicit oracle argument
(a uniform draw threaded through every sampling call), and code that
can raise becomes Except-valued, with PyError naming the runtime
fault classes that actually occur.
-/

/-- Runtime fault classes of the embedded Python code: ValueError
(raised for example by random.randint on an empty range and by
numpy.vstack on an empty list), TypeError (raised by calling
numpy.fromiter without its required dtype argument) and
ZeroDivisionError. -/
inductive PyError where
  | valueError : PyError
  | typeError : PyError
  | zeroDivision : PyError
deriving DecidableEq

/-- Embedding of the abstract class Distribution (Distribution.py,
lines 8 to 14) together with the generic bulk sampling of the draft at
Die.py lines 173 to 188: a sampler over value type V whose single
abstract operation sample consumes the random source, modelled as an
explicit state of type σ threaded through every draw. -/
structure DistributionT (V : Type) (σ : Type) where
  sample : σ → V × σ

/-- State of the random source after i successive calls to sample
starting from source state s. -/
def DistributionT.stateAfter {V σ : Type} (d : DistributionT V σ) (s : σ) : ℕ → σ
  | 0 => s
  | k + 1 => (d.sample (d.stateAfter s k)).2

/-- Value produced by the i-th successive call to sample (0-indexed)
starting from source state s. -/
def DistributionT.nthDraw {V σ : Type} (d : DistributionT V σ) (s : σ) (i : ℕ) : V :=
  (d.sample (d.stateAfter s i)).1

/-- Helper for sample_n: performs k successive sample calls in order,
returning the drawn values in call order together with the final state
of the random source. -/
def DistributionT.sample_list {V σ : Type} (d : DistributionT V σ) : ℕ → σ → List V × σ
  | 0, s => ([], s)
  | k + 1, s =>
    let first := d.sample s
    let rest := d.sample_list k first.2
    (first.1 :: rest.1, rest.2)

/-- Embedding of the derived operation sample_n from the draft of the
abstraction (Die.py lines 180 to 181): the body is the comprehension
[self.sample() for _ in range(n)], so a negative n makes range(n)
empty and the result is the empty list; no exception is raised
anywhere in this code. n.toNat is the number of iterations range(n)
yields. -/
def DistributionT.sample_n {V σ : Type} (d : DistributionT V σ) (n : ℤ) (s : σ) :
    List V × σ :=
  d.sample_list n.toNat s

theorem DistributionT.stateAfter_shift {V σ : Type} (d : DistributionT V σ) (s : σ)
    (k : ℕ) : d.stateAfter (d.sample s).2 k = d.stateAfter s (k + 1) := by
  induction k with
  | zero => rfl
  | succ k ih => rw [DistributionT.stateAfter, ih]; rfl

theorem DistributionT.sample_list_eq {V σ : Type} (d : DistributionT V σ) :
    ∀ (k : ℕ) (s : σ),
      d.sample_list k s = ((List.range k).map (d.nthDraw s), d.stateAfter s k) := by
  intro k
  induction k with
  | zero => intro s; simp [DistributionT.sample_list, DistributionT.stateAfter]
  | succ k ih =>
    intro s
    rw [DistributionT.sample_list]
    simp only [ih, Prod.mk.injEq]
    constructor
    · rw [List.range_succ_eq_map, List.map_cons, List.map_map]
      congr 1
      have hf : d.nthDraw (d.sample s).2 = d.nthDraw s ∘ Nat.succ := by
        funext i
        show d.nthDraw (d.sample s).2 i = d.nthDraw s (i + 1)
        rw [DistributionT.nthDraw, DistributionT.nthDraw, d.stateAfter_shift]
      rw [hf]
    · rw [d.stateAfter_shift]

/-- Concrete conforming sampler used as a test instance: a
deterministic stand-in for Die(6) whose random source state is a
counter, each call returning a value in [1, 6] and advancing the
counter. -/
def counterSampler : DistributionT ℕ ℕ := ⟨fun s => (1 + s % 6, s + 1)⟩

/-- C2. The derived sample_n of the sampler abstraction, for every
conforming implementation, returns the successive draws in call order,
exactly n of them when n is nonnegative (so an empty sequence for
n = 0); but for n < 0 it returns an empty sequence with the random
source untouched, rather than failing with an InvalidArgument
condition. -/
theorem sample_n_spec {V σ : Type} (d : DistributionT V σ) (n : ℤ) (s : σ) :
    (d.sample_n n s).1 = (List.range n.toNat).map (d.nthDraw s) ∧
    (0 ≤ n → ((d.sample_n n s).1.length : ℤ) = n) ∧
    (n < 0 → d.sample_n n s = ([], s)) := by
  refine ⟨?_, ?_, ?_⟩
  · rw [DistributionT.sample_n, d.sample_list_eq]
  · intro h
    rw [DistributionT.sample_n, d.sample_list_eq]
    simp [Int.toNat_of_nonneg h]
  · intro h
    have h0 : n.toNat = 0 := Int.toNat_of_nonpos (le_of_lt h)
    rw [DistributionT.sample_n, h0]
    rfl

/-- Witness for C2 at the concrete sampler: n = 2 yields the two draws
in call order, and n = -1 yields the empty sequence unchanged. -/
theorem sample_n_spec_witness :
    (counterSampler.sample_n 2 0).1 =
      (List.range (2 : ℤ).toNat).map (counterSampler.nthDraw 0) ∧
    ((counterSampler.sample_n 2 0).1.length : ℤ) = 2 ∧
    counterSampler.sample_n (-1) 0 = ([], 0) :=
  ⟨(sample_n_spec counterSampler 2 0).1,
   (sample_n_spec counterSampler 2 0).2.1 (by decide),
   (sample_n_spec counterSampler (-1) 0).2.2 (by decide)⟩

/-- Counterexample for C2 as stated: sample_n at n = -1 returns the
empty sequence normally (the comprehension over range(-1) makes no
draw and no code path can raise), it does not fail with an
InvalidArgument condition. -/
theorem sample_n_neg_counterexample :
    counterSampler.sample_n (-1) 0 = ([], 0) := by
  decide

/-- Embedding of the class Die (Die.py lines 10 to 25): its one
attribute is sides. -/
structure Die where
  sides : ℤ
deriving DecidableEq

/-- Embedding of the constructor of Die (Die.py lines 11 to 12). The
body only stores sides; it contains no validation and no code path
that raises, so it succeeds on every input. The Except return type
makes the absence of a failure path explicit for comparison with the
specification. -/
def Die.init (sides : ℤ) : Except PyError Die :=
  .ok ⟨sides⟩

/-- Embedding of random.randint(a, b): raises ValueError on an empty
range (b < a), otherwise returns a value in [a, b]; the uniform draw
is modelled by the oracle r reduced modulo the size of the range. -/
def randint (a b : ℤ) (r : ℕ) : Except PyError ℤ :=
  if b < a then .error .valueError
  else .ok (a + ((r % (b - a + 1).toNat : ℕ) : ℤ))

/-- Embedding of Die.sample (Die.py lines 24 to 25): returns
random.randint(1, self.sides). -/
def Die.sample (self : Die) (r : ℕ) : Except PyError ℤ :=
  randint 1 self.sides r

/-- C8 counterexample: the claim says the constructor fails with an
InvalidArgument condition for every sides < 1, but Die(-1) constructs
successfully. -/
theorem die_init_negative_counterexample : Die.init (-1) = .ok ⟨-1⟩ :=
  rfl

/-- C8 amended. The Die constructor performs no validation and
succeeds for every sides (including sides < 1); for every sides >= 1
the resulting die draws an integer in [1, sides]. -/
theorem die_init_sample_spec (sides : ℤ) (r : ℕ) :
    Die.init sides = .ok ⟨sides⟩ ∧
    (1 ≤ sides → ∃ v, (Die.mk sides).sample r = .ok v ∧ 1 ≤ v ∧ v ≤ sides) := by
  refine ⟨rfl, fun h => ?_⟩
  refine ⟨1 + ((r % (sides - 1 + 1).toNat : ℕ) : ℤ), ?_, ?_, ?_⟩
  · show randint 1 sides r = _
    rw [randint, if_neg (by omega)]
  · have : (0 : ℤ) ≤ ((r % (sides - 1 + 1).toNat : ℕ) : ℤ) := Int.natCast_nonneg _
    omega
  · have hp : 0 < (sides - 1 + 1).toNat := by omega
    have hk : r % (sides - 1 + 1).toNat < (sides - 1 + 1).toNat := Nat.mod_lt r hp
    omega

/-- Witness for C8 amended at sides = 6, oracle 10. -/
theorem die_init_sample_spec_witness :
    Die.init 6 = .ok ⟨6⟩ ∧
    (∃ v, (Die.mk 6).sample 10 = .ok v ∧ 1 ≤ v ∧ v ≤ 6) :=
  ⟨(die_init_sample_spec 6 10).1, (die_init_sample_spec 6 10).2 (by norm_num)⟩

/-- Embedding of the generator function simulation (Die.py lines 311
to 315): the n-th element of the unbounded sequence of states it
yields when driven by the step function of the process. Its first
yielded element is start_state itself and each later element is
obtained by applying the step function to the previous one. A
stochastic process instantiates S with the pair of its state and the
position of the global random source, so that the step function is a
plain function on S. -/
def simulation {S : Type} (process_next : S → S) (start_state : S) : ℕ → S
  | 0 => start_state
  | n + 1 => process_next (simulation process_next start_state n)

/-- Consumption semantics of a generator instance produced by
simulation: a generator whose next pending state is s, asked for n
elements (as itertools.islice does), yields those n elements in order
and is left as a generator whose pending state is the continuation,
not a fresh restart. -/
def genTake {S : Type} (process_next : S → S) : S → ℕ → List S × S
  | s, 0 => ([], s)
  | s, n + 1 =>
    let rest := genTake process_next (process_next s) n
    (s :: rest.1, rest.2)

theorem simulation_shift {S : Type} (f : S → S) (s : S) (n : ℕ) :
    simulation f (f s) n = simulation f s (n + 1) := by
  induction n with
  | zero => rfl
  | succ n ih => rw [simulation, ih]; rfl

theorem simulation_add {S : Type} (f : S → S) (s : S) (m : ℕ) :
    ∀ i : ℕ, simulation f (simulation f s m) i = simulation f s (m + i) := by
  intro i
  induction i with
  | zero => rfl
  | succ i ih => rw [simulation, ih]; rfl

theorem genTake_eq {S : Type} (f : S → S) :
    ∀ (m : ℕ) (s : S),
      genTake f s m = ((List.range m).map (simulation f s), simulation f s m) := by
  intro m
  induction m with
  | zero => intro s; simp [genTake, simulation]
  | succ m ih =>
    intro s
    rw [genTake]
    simp only [ih, Prod.mk.injEq]
    constructor
    · rw [List.range_succ_eq_map, List.map_cons, List.map_map]
      congr 1
      have hf : simulation f (f s) = simulation f s ∘ Nat.succ := by
        funext i
        show simulation f (f s) i = simulation f s (i + 1)
        exact simulation_shift f s i
      rw [hf]
    · exact simulation_shift f s m

/-- C5. The sequence produced by simulation has start_state itself as
its first element, every later element is the step function applied to
the previous element, consuming m elements of a generator instance
yields exactly the first m elements of that sequence, and consuming
again from the generator left behind yields the continuation (elements
m, m+1, ...), not a repeat from the start. -/
theorem simulation_spec {S : Type} (f : S → S) (s : S) (n m k : ℕ) :
    simulation f s 0 = s ∧
    simulation f s (n + 1) = f (simulation f s n) ∧
    (genTake f s m).1 = (List.range m).map (simulation f s) ∧
    (genTake f (genTake f s m).2 k).1 =
      (List.range k).map (fun i => simulation f s (m + i)) := by
  refine ⟨rfl, rfl, ?_, ?_⟩
  · rw [genTake_eq]
  · rw [genTake_eq, genTake_eq]
    simp only []
    refine congrArg (fun g => List.map g (List.range k)) (funext fun i => ?_)
    exact simulation_add f s m i

/-- Embedding of numpy.random.binomial(1, p, 1)[0], a single Bernoulli
trial with success probability p: numpy validates p first and raises
ValueError when p < 0 or p > 1; a valid trial is modelled by inverse
transform sampling on a uniform oracle draw r in [0, 1), the draw
being 1 exactly when r falls below p. Real-valued version for the
processes whose probabilities are real expressions. -/
noncomputable def binomial_draw (p : ℝ) (r : ℝ) : Except PyError ℤ :=
  if p < 0 ∨ 1 < p then .error .valueError
  else .ok (if r < p then 1 else 0)

/-- Embedding of the same Bernoulli trial over exact rationals, for
Process2 whose probability expression is rational arithmetic; it
performs the same p validation as the real version. -/
def binomial_drawQ (p : ℚ) (r : ℚ) : Except PyError ℤ :=
  if p < 0 ∨ 1 < p then .error .valueError
  else .ok (if r < p then 1 else 0)

/-- State of Process1 (Die.py lines 297 to 299): a single integer
price field. -/
structure Process1.State where
  price : ℤ
deriving DecidableEq

/-- Embedding of Process1 (Die.py lines 294 to 309), the
mean-reverting process: parameters level_param and alpha1 (the Python
default for alpha1 is 0.25). -/
structure Process1 where
  level_param : ℤ
  alpha1 : ℝ

/-- Embedding of Process1.up_prob (Die.py lines 304 to 305): the
logistic expression 1 / (1 + exp(-alpha1 * (level_param - price))). -/
noncomputable def Process1.up_prob (self : Process1) (state : Process1.State) : ℝ :=
  1 / (1 + Real.exp (-self.alpha1 * ((self.level_param : ℝ) - (state.price : ℝ))))

/-- Embedding of Process1.next_state (Die.py lines 307 to 309): draws
one Bernoulli trial at the up probability of the current state
(propagating the fault the draw would raise on an invalid probability)
and returns the freshly constructed state with price changed by
up_move * 2 - 1. -/
noncomputable def Process1.next_state (self : Process1) (state : Process1.State)
    (r : ℝ) : Except PyError Process1.State :=
  (binomial_draw (self.up_prob state) r).map (fun up_move =>
    ⟨state.price + up_move * 2 - 1⟩)

theorem process1_up_prob_pos (p : Process1) (s : Process1.State) :
    0 < p.up_prob s ∧ p.up_prob s ≤ 1 := by
  rw [Process1.up_prob]
  have he := Real.exp_pos (-p.alpha1 * ((p.level_param : ℝ) - (s.price : ℝ)))
  constructor
  · positivity
  · rw [div_le_one (by linarith)]
    linarith

theorem process1_next_state_ok (p : Process1) (s : Process1.State) (r : ℝ) :
    p.next_state s r = .ok ⟨if r < p.up_prob s then s.price + 1 else s.price - 1⟩ := by
  obtain ⟨h0, h1⟩ := process1_up_prob_pos p s
  rw [Process1.next_state, binomial_draw,
    if_neg (by push_neg; exact ⟨le_of_lt h0, h1⟩)]
  by_cases h : r < p.up_prob s
  · rw [if_pos h, if_pos h]
    simp only [Except.map, Except.ok.injEq, Process1.State.mk.injEq]
    ring
  · rw [if_neg h, if_neg h]
    simp only [Except.map, Except.ok.injEq, Process1.State.mk.injEq]
    ring

/-- C6. For every Process1 instance and state, up_prob is exactly the
logistic expression 1 / (1 + exp(-alpha1 * (level_param - price)));
that value always lies in (0, 1], so the Bernoulli draw never faults
and next_state returns the fresh state whose price is changed by
exactly +1 on an up-move (uniform draw below the up probability) and
by -1 otherwise; and with alpha1 = 0 the up probability is exactly 0.5
for every price and level_param. -/
theorem process1_spec (p : Process1) (s : Process1.State) (r : ℝ) :
    p.up_prob s =
      1 / (1 + Real.exp (-p.alpha1 * ((p.level_param : ℝ) - (s.price : ℝ)))) ∧
    p.next_state s r =
      .ok ⟨if r < p.up_prob s then s.price + 1 else s.price - 1⟩ ∧
    (∀ (lvl : ℤ) (s2 : Process1.State), (Process1.mk lvl 0).up_prob s2 = 0.5) := by
  refine ⟨rfl, process1_next_state_ok p s r, ?_⟩
  intro lvl s2
  rw [Process1.up_prob]
  norm_num

/-- Embedding of handy_map (Die.py line 415), the dictionary
{True: 1, False: -1, None: 0} mapping the optional previous-move flag
to an integer sign. -/
def handy_map : Option Bool → ℤ
  | some true => 1
  | some false => -1
  | none => 0

/-- State of Process2 (Die.py lines 421 to 424): the price and the
optional direction of the previous move (None only in the initial
state). -/
structure Process2.State where
  price : ℤ
  is_prev_move_up : Option Bool
deriving DecidableEq

/-- Embedding of Process2 (Die.py lines 418 to 436), the
momentum/reversal process: parameter alpha2 (the Python default is
0.75). Its probability expression is plain rational arithmetic, so it
is embedded over exact rationals. -/
structure Process2 where
  alpha2 : ℚ

/-- Embedding of the local variable up_prob of Process2.up_move
(Die.py line 431): 0.5 * (1 - alpha2 * sign of the previous move). -/
def Process2.up_prob (self : Process2) (state : Process2.State) : ℚ :=
  0.5 * (1 - self.alpha2 * ((handy_map state.is_prev_move_up : ℤ) : ℚ))

/-- Embedding of Process2.up_move (Die.py lines 429 to 432): one
Bernoulli trial at that probability, raising ValueError (inside
numpy.random.binomial) when the probability falls outside [0, 1]. -/
def Process2.up_move (self : Process2) (state : Process2.State) (r : ℚ) :
    Except PyError ℤ :=
  binomial_drawQ (self.up_prob state) r

/-- Embedding of Process2.next_state (Die.py lines 434 to 436): when
the draw succeeds, freshly constructs the state with price changed by
2 * move - 1 and is_prev_move_up set to whether the move just taken
was up; when the draw raises, the fault propagates and no state is
produced. -/
def Process2.next_state (self : Process2) (state : Process2.State)
    (r : ℚ) : Except PyError Process2.State :=
  (self.up_move state r).map (fun next_move_up =>
    ⟨state.price + 2 * next_move_up - 1, some (next_move_up == 1)⟩)

/-- C7 counterexample: the claim asserts that next_state changes the
price by plus or minus one for every Process2 instance and state, but
at alpha2 = 2 with a previous up move the up-probability expression is
0.5 * (1 - 2) = -0.5, numpy.random.binomial raises ValueError on it,
and next_state returns no state at all. -/
theorem process2_next_state_raises_counterexample :
    (Process2.mk 2).next_state ⟨100, some true⟩ 0 = .error .valueError := by
  have hp : (Process2.mk 2).up_prob ⟨100, some true⟩ < 0 := by
    norm_num [Process2.up_prob, handy_map]
  rw [Process2.next_state, Process2.up_move, binomial_drawQ, if_pos (Or.inl hp)]
  rfl

/-- C7 amended. For every Process2 instance and state, the
up-probability expression is 0.5 * (1 - alpha2 * sign) with sign read
from handy_map (+1 for a previous up move, -1 for a previous down
move, 0 for no previous move); whenever that value lies in [0, 1] (as
for every |alpha2| <= 1), next_state changes the price by +1 on an
up-move and -1 otherwise and records the direction of the move just
taken as the new is_prev_move_up, which is therefore never None after
a transition; whenever the value falls outside [0, 1], the Bernoulli
draw raises ValueError and no transition occurs. -/
theorem process2_spec (p2 : Process2) (s : Process2.State) (r : ℚ) :
    p2.up_prob s =
      0.5 * (1 - p2.alpha2 * ((handy_map s.is_prev_move_up : ℤ) : ℚ)) ∧
    handy_map (some true) = 1 ∧ handy_map (some false) = -1 ∧ handy_map none = 0 ∧
    (0 ≤ p2.up_prob s ∧ p2.up_prob s ≤ 1 →
      p2.next_state s r =
        .ok ⟨if r < p2.up_prob s then s.price + 1 else s.price - 1,
          some (decide (r < p2.up_prob s))⟩) ∧
    (p2.up_prob s < 0 ∨ 1 < p2.up_prob s →
      p2.next_state s r = .error .valueError) := by
  refine ⟨rfl, rfl, rfl, rfl, ?_, ?_⟩
  · rintro ⟨h0, h1⟩
    rw [Process2.next_state, Process2.up_move, binomial_drawQ,
      if_neg (by push_neg; exact ⟨h0, h1⟩)]
    by_cases h : r < p2.up_prob s
    · rw [if_pos h, if_pos h, decide_eq_true h]
      simp only [Except.map, Except.ok.injEq, Process2.State.mk.injEq]
      constructor
      · ring
      · rfl
    · rw [if_neg h, if_neg h, decide_eq_false h]
      simp only [Except.map, Except.ok.injEq, Process2.State.mk.injEq]
      constructor
      · ring
      · rfl
  · intro h
    rw [Process2.next_state, Process2.up_move, binomial_drawQ, if_pos h]
    rfl

/-- Witness for C7 amended: at alpha2 = 0.75 (the default) with a
previous up move the probability is 0.125, in range, and the oracle
draw 0 takes the up branch to price 101 with the flag recording an up
move; at alpha2 = 2 with a previous down move the probability is 1.5,
out of range, and next_state raises ValueError. -/
theorem process2_spec_witness :
    (Process2.mk (3 / 4)).next_state ⟨100, some true⟩ 0 = .ok ⟨101, some true⟩ ∧
    (Process2.mk 2).next_state ⟨100, some false⟩ 0 = .error .valueError := by
  have hup : (Process2.mk (3 / 4)).up_prob ⟨100, some true⟩ = 1 / 8 := by
    norm_num [Process2.up_prob, handy_map]
  constructor
  · have h := (process2_spec (Process2.mk (3 / 4)) ⟨100, some true⟩ 0).2.2.2.2.1
      (by rw [hup]; norm_num)
    rw [h, hup, if_pos (by norm_num : (0 : ℚ) < 1 / 8),
      decide_eq_true (by norm_num : (0 : ℚ) < 1 / 8)]
    rfl
  · exact (process2_spec (Process2.mk 2) ⟨100, some false⟩ 0).2.2.2.2.2
      (Or.inr (by norm_num [Process2.up_prob, handy_map]))

/-- State of Process3 (Die.py lines 456 to 459): the counts of up
moves and down moves so far. -/
structure Process3.State where
  num_of_up_moves : ℤ
  num_of_down_moves : ℤ
deriving DecidableEq

/-- Embedding of Process3 (Die.py lines 453 to 470), the
relative-frequency process: parameter alpha3 (the Python default is
1.0). -/
structure Process3 where
  alpha3 : ℝ

/-- Embedding of Process3.up_prob (Die.py lines 461 to 464). The
condition on line 462 is transcribed exactly as written in the source:
it tests num_of_up_moves == 0 twice and never tests
num_of_down_moves. On the other branch two Python divisions can raise
ZeroDivisionError: the ratio num_of_up_moves / num_of_down_moves when
num_of_down_moves is 0, and the outer division when the denominator
1 + ratio ** alpha3 is 0 (as at the state (1, -1) with alpha3 = 1,
where the ratio is -1.0). The float power is embedded as the real
power; for a negative ratio with a non-integer alpha3 Python instead
produces a complex value, outside this real-valued embedding — such
states need a negative count, which no reachable state has. -/
noncomputable def Process3.up_prob (self : Process3) (state : Process3.State) :
    Except PyError ℝ :=
  if state.num_of_up_moves = 0 ∧ state.num_of_up_moves = 0 then .ok 0.5
  else if state.num_of_down_moves = 0 then .error .zeroDivision
  else if 1 + ((state.num_of_up_moves : ℝ) / (state.num_of_down_moves : ℝ))
      ^ self.alpha3 = 0 then .error .zeroDivision
  else .ok (1 / (1 + ((state.num_of_up_moves : ℝ) / (state.num_of_down_moves : ℝ))
    ^ self.alpha3))

/-- Embedding of Process3.next_state (Die.py lines 466 to 470): draws
one Bernoulli trial at the up probability (propagating the possible
ZeroDivisionError of up_prob and the ValueError the draw raises on a
probability outside [0, 1]) and freshly constructs the state with
num_of_up_moves increased by the draw and num_of_down_moves changed by
1 minus the draw. -/
noncomputable def Process3.next_state (self : Process3) (state : Process3.State)
    (r : ℝ) : Except PyError Process3.State :=
  (self.up_prob state).bind (fun p =>
    (binomial_draw p r).map (fun up_move =>
      ⟨state.num_of_up_moves + up_move, state.num_of_down_moves - up_move + 1⟩))

/-- C1. Process3.up_prob returns exactly 0.5 on the all-zero state,
but on the state with num_of_up_moves = 5 and num_of_down_moves = 0
(alpha3 at its default 1.0) it raises ZeroDivisionError instead of
returning the clamp-to-zero edge value: the guard on line 462 tests
num_of_up_moves twice, so the zero denominator reaches the division.
This evaluates the code at the failing input of the claim. -/
theorem process3_up_prob_div_fault :
    (Process3.mk 1).up_prob ⟨0, 0⟩ = .ok 0.5 ∧
    (Process3.mk 1).up_prob ⟨5, 0⟩ = .error .zeroDivision := by
  constructor
  · rw [Process3.up_prob, if_pos (by exact ⟨rfl, rfl⟩)]
  · rw [Process3.up_prob, if_neg (by norm_num), if_pos rfl]

/-- C10. For every Process3 instance, every state whose
num_of_up_moves is 0 takes the first branch of up_prob regardless of
num_of_down_moves (including positive down counts), because the guard
on line 462 tests num_of_up_moves twice; so up_prob returns exactly
0.5 there. -/
theorem process3_up_prob_zero_up (p3 : Process3) (down : ℤ) :
    p3.up_prob ⟨0, down⟩ = .ok 0.5 := by
  rw [Process3.up_prob, if_pos (by exact ⟨rfl, rfl⟩)]

/-- C4. The state with num_of_up_moves = 1 and num_of_down_moves = 0
is reachable from the caller-supplied initial state (0, 0) in one
transition (an up-move, drawn here by the oracle value 0 against
probability 0.5), and on it Process3.up_prob raises ZeroDivisionError:
the up-probability computation neither returns a value in [0, 1] nor
applies the defined zero-denominator boundary policy there. This
evaluates the code at the failing input of the claim. -/
theorem process3_reachable_fault :
    (Process3.mk 1).next_state ⟨0, 0⟩ 0 = .ok ⟨1, 0⟩ ∧
    (Process3.mk 1).up_prob ⟨1, 0⟩ = .error .zeroDivision := by
  constructor
  · have h : (Process3.mk 1).up_prob ⟨0, 0⟩ = .ok 0.5 := by
      rw [Process3.up_prob, if_pos (by exact ⟨rfl, rfl⟩)]
    have hb : binomial_draw 0.5 0 = .ok 1 := by
      rw [binomial_draw, if_neg (by norm_num), if_pos (by norm_num)]
    rw [Process3.next_state, h]
    show (binomial_draw 0.5 0).map _ = _
    rw [hb]
    simp only [Except.map, Except.ok.injEq, Process3.State.mk.injEq]
    norm_num
  · rw [Process3.up_prob, if_neg (by norm_num), if_pos rfl]

/-- Frame-explicit rendering of Process1.next_state: the method reads
the fields of its argument and, when the draw succeeds, returns a
freshly constructed State; no statement in its body assigns to a field
of the argument, on any path. To make that visible in a pure
embedding, this variant returns, alongside any state it produces, the
argument object as it stands when the call returns. -/
noncomputable def Process1.next_state_eff (self : Process1) (state : Process1.State)
    (r : ℝ) : Except PyError (Process1.State × Process1.State) :=
  (binomial_draw (self.up_prob state) r).map (fun up_move =>
    (⟨state.price + up_move * 2 - 1⟩, state))

/-- Frame-explicit rendering of Process2.next_state, in the same sense
as the Process1 variant. -/
def Process2.next_state_eff (self : Process2) (state : Process2.State)
    (r : ℚ) : Except PyError (Process2.State × Process2.State) :=
  (self.up_move state r).map (fun next_move_up =>
    (⟨state.price + 2 * next_move_up - 1, some (next_move_up == 1)⟩, state))

/-- Frame-explicit rendering of Process3.next_state, in the same sense
as the Process1 variant. -/
noncomputable def Process3.next_state_eff (self : Process3) (state : Process3.State)
    (r : ℝ) : Except PyError (Process3.State × Process3.State) :=
  (self.up_prob state).bind (fun p =>
    (binomial_draw p r).map (fun up_move =>
      (⟨state.num_of_up_moves + up_move, state.num_of_down_moves - up_move + 1⟩,
        state)))

/-- C9. For every process variant, state and oracle draw, the
frame-explicit next_state agrees with next_state mapped to the pair of
its result and the untouched input: on raising paths both raise the
same fault and no state is produced, and on every returning path the
returned state is exactly the freshly constructed value that
next_state builds while the input state is unchanged in every
field. -/
theorem next_state_fresh_spec (p1 : Process1) (s1 : Process1.State) (r1 : ℝ)
    (p2 : Process2) (s2 : Process2.State) (r2 : ℚ)
    (p3 : Process3) (s3 : Process3.State) (r3 : ℝ) :
    p1.next_state_eff s1 r1 = (p1.next_state s1 r1).map (fun t => (t, s1)) ∧
    p2.next_state_eff s2 r2 = (p2.next_state s2 r2).map (fun t => (t, s2)) ∧
    p3.next_state_eff s3 r3 = (p3.next_state s3 r3).map (fun t => (t, s3)) := by
  refine ⟨?_, ?_, ?_⟩
  · rw [Process1.next_state_eff, Process1.next_state]
    cases hb : binomial_draw (p1.up_prob s1) r1 <;> rfl
  · rw [Process2.next_state_eff, Process2.next_state]
    cases hb : p2.up_move s2 r2 <;> rfl
  · rw [Process3.next_state_eff, Process3.next_state]
    cases hp : p3.up_prob s3 with
    | error e => rfl
    | ok p =>
      show (binomial_draw p r3).map _ = Except.map _ ((binomial_draw p r3).map _)
      cases hb : binomial_draw p r3 <;> rfl

/-- Evaluation of a Python list comprehension whose element expression
may raise: elements are produced left to right and the first raised
exception aborts the whole comprehension. -/
def mapE {α β : Type} (f : α → Except PyError β) : List α → Except PyError (List β)
  | [] => .ok []
  | a :: rest => do
    let b ← f a
    let bs ← mapE f rest
    pure (b :: bs)

/-- Embedding of numpy.fromiter: its dtype argument is validated
before the iterable is consumed, and it is required, so a call that
omits it (dtype given as none here) raises TypeError without touching
the iterable; with a dtype supplied the values are materialised,
propagating any exception their production raises (hence the
Except-valued iterable argument). -/
def np_fromiter {α : Type} (values : Except PyError (List α)) (dtype : Option Unit) :
    Except PyError (List α) :=
  match dtype with
  | none => .error .typeError
  | some _ => values

/-- Embedding of numpy.vstack on a list of equal-length rows: raises
ValueError on an empty list (it needs at least one array) or on
mismatched row lengths, otherwise returns the rows as a table. -/
def np_vstack {α : Type} (rows : List (List α)) : Except PyError (List (List α)) :=
  match rows with
  | [] => .error .valueError
  | r :: rest =>
    if rest.all (fun x => x.length = r.length) then .ok (r :: rest)
    else .error .valueError

/-- Embedding of numpy.vstack applied to a list of (array, scalar
dtype) pairs, which is what process2_price_traces builds: numpy cannot
stack such inhomogeneous rows, so the call raises ValueError. This
branch is unreachable for a positive number of traces because
np_fromiter has already raised. -/
def np_vstack_pairs {α : Type} (_rows : List (List α × Unit)) :
    Except PyError (List (List α)) :=
  .error .valueError

/-- One simulated Process1 trajectory read at positions 0 to n of the
lazy simulation sequence: the world threaded through simulation is the
Except-wrapped pair of the process state and the position of the
global random source, so that a fault raised by any transition aborts
the whole row; row j starts at oracle offset j * time_steps (each row
consumes time_steps draws). -/
noncomputable def process1_row (process : Process1) (start_state : Process1.State)
    (orc : ℕ → ℝ) (offset time_steps : ℕ) : Except PyError (List ℝ) :=
  mapE (fun i =>
    (simulation (fun w : Except PyError (Process1.State × ℕ) =>
        w.bind (fun v => (process.next_state v.1 (orc v.2)).map (fun s2 => (s2, v.2 + 1))))
      (.ok (start_state, offset)) i).map (fun v => (v.1.price : ℝ)))
    (List.range (time_steps + 1))

/-- Embedding of process1_price_traces (Die.py lines 317 to 326):
builds one row per trace from a fresh simulation of the process
started at start_price, materialises each row with
numpy.fromiter(values, float) — dtype supplied — and stacks the rows
with numpy.vstack. -/
noncomputable def process1_price_traces (start_price level_param : ℤ) (alpha1 : ℝ)
    (time_steps num_traces : ℕ) (orc : ℕ → ℝ) : Except PyError (List (List ℝ)) :=
  (mapE (fun j =>
    np_fromiter (process1_row ⟨level_param, alpha1⟩ ⟨start_price⟩ orc
      (j * time_steps) time_steps) (some ())) (List.range num_traces)).bind np_vstack

/-- One simulated Process2 trajectory, as process1_row but for
Process2, whose initial state pairs start_price with no previous
move. -/
def process2_row (process : Process2) (start_state : Process2.State)
    (orc : ℕ → ℚ) (offset time_steps : ℕ) : Except PyError (List ℚ) :=
  mapE (fun i =>
    (simulation (fun w : Except PyError (Process2.State × ℕ) =>
        w.bind (fun v => (process.next_state v.1 (orc v.2)).map (fun s2 => (s2, v.2 + 1))))
      (.ok (start_state, offset)) i).map (fun v => (v.1.price : ℚ)))
    (List.range (time_steps + 1))

/-- Embedding of process2_price_traces (Die.py lines 439 to 449). The
source builds each element of the stacked list as the pair
(np.fromiter(generator), float): the dtype that fromiter requires is
left out of the call — the parenthesis placement makes float the
second component of a tuple instead — so np.fromiter is invoked with
dtype absent (none here) and the pair is only formed if it returns. -/
def process2_price_traces (start_price : ℤ) (num_traces time_steps : ℕ)
    (alpha2 : ℚ) (orc : ℕ → ℚ) : Except PyError (List (List ℚ)) := do
  let process : Process2 := ⟨alpha2⟩
  let start_state : Process2.State := ⟨start_price, none⟩
  let rows ← mapE (fun j =>
    (np_fromiter (process2_row process start_state orc (j * time_steps) time_steps)
      none).map (fun arr => (arr, ()))) (List.range num_traces)
  np_vstack_pairs rows

/-- C3. Evaluating process2_price_traces at the failing input of the
claim — start_price 100, one trace, one time step, alpha2 at its
default 0.75, any oracle — raises TypeError: numpy.fromiter is called
without its required dtype argument, so no (1, 2) table with first
column 100 is ever returned for the Process2 variant. -/
theorem process2_price_traces_typeerror :
    process2_price_traces 100 1 1 (3 / 4) (fun _ => 0) = .error .typeError := by
  rfl

theorem mapE_ok_of {α β : Type} (f : α → Except PyError β) (g : α → β) :
    ∀ l : List α, (∀ a ∈ l, f a = .ok (g a)) → mapE f l = .ok (l.map g) := by
  intro l
  induction l with
  | nil => intro _; rfl
  | cons a rest ih =>
    intro h
    simp only [mapE, h a (List.mem_cons_self a rest),
      ih (fun x hx => h x (List.mem_cons_of_mem a hx))]
    rfl

/-- Fault-free restatement of the Process1 transition on the plain
world (state, oracle position), used to name the values that the
Except-wrapped simulation of Process1 always produces. -/
noncomputable def process1_step (process : Process1) (orc : ℕ → ℝ)
    (v : Process1.State × ℕ) : Process1.State × ℕ :=
  (⟨if orc v.2 < process.up_prob v.1 then v.1.price + 1 else v.1.price - 1⟩, v.2 + 1)

theorem process1_sim_ok (p : Process1) (orc : ℕ → ℝ) (w0 : Process1.State × ℕ) :
    ∀ i, simulation (fun w : Except PyError (Process1.State × ℕ) =>
        w.bind (fun v => (p.next_state v.1 (orc v.2)).map (fun s2 => (s2, v.2 + 1))))
      (.ok w0) i = .ok (simulation (process1_step p orc) w0 i) := by
  intro i
  induction i with
  | zero => rfl
  | succ i ih =>
    rw [simulation, ih]
    show (p.next_state _ _).map _ = _
    rw [process1_next_state_ok]
    rfl

theorem process1_row_eq (p : Process1) (s0 : Process1.State) (orc : ℕ → ℝ)
    (offset ts : ℕ) :
    process1_row p s0 orc offset ts =
      .ok ((List.range (ts + 1)).map (fun i =>
        ((simulation (process1_step p orc) (s0, offset) i).1.price : ℝ))) := by
  rw [process1_row]
  refine mapE_ok_of _ _ _ (fun i _ => ?_)
  rw [process1_sim_ok]
  rfl

theorem process1_row_vals_length (p : Process1) (s0 : Process1.State) (orc : ℕ → ℝ)
    (offset ts : ℕ) :
    ((List.range (ts + 1)).map (fun i =>
      ((simulation (process1_step p orc) (s0, offset) i).1.price : ℝ))).length
      = ts + 1 := by
  rw [List.length_map, List.length_range]

theorem np_vstack_ok {α : Type} (rows : List (List α)) (n : ℕ)
    (hne : rows ≠ []) (hlen : ∀ row ∈ rows, row.length = n) :
    np_vstack rows = .ok rows := by
  cases rows with
  | nil => exact absurd rfl hne
  | cons r rest =>
    show (if rest.all (fun x => x.length = r.length) then Except.ok (r :: rest)
      else Except.error PyError.valueError) = Except.ok (r :: rest)
    rw [if_pos]
    simp only [List.all_eq_true, decide_eq_true_eq]
    intro x hx
    rw [hlen x (List.mem_cons_of_mem r hx), hlen r (List.mem_cons_self r rest)]

theorem process1_row_vals_head (p : Process1) (s0 : Process1.State) (orc : ℕ → ℝ)
    (offset ts : ℕ) :
    ((List.range (ts + 1)).map (fun i =>
      ((simulation (process1_step p orc) (s0, offset) i).1.price : ℝ))).head?
      = some (s0.price : ℝ) := by
  rw [List.range_succ_eq_map, List.map_cons, List.head?_cons]
  rfl

/-- Supporting fact for the analysis of the trace generator (the
Process1 variant, which the source builds correctly): for a positive
number of traces, process1_price_traces returns a table with
num_traces rows, every row of length time_steps + 1, and every row
starting exactly at start_price. -/
theorem process1_price_traces_shape (start_price level_param : ℤ) (alpha1 : ℝ)
    (time_steps num_traces : ℕ) (orc : ℕ → ℝ) (h : 1 ≤ num_traces) :
    ∃ t, process1_price_traces start_price level_param alpha1 time_steps num_traces orc
        = .ok t ∧ t.length = num_traces ∧
      (∀ row ∈ t, row.length = time_steps + 1) ∧
      (∀ row ∈ t, row.head? = some (start_price : ℝ)) := by
  obtain ⟨k, rfl⟩ : ∃ k, num_traces = k + 1 := ⟨num_traces - 1, by omega⟩
  refine ⟨(List.range (k + 1)).map
    (fun j => (List.range (time_steps + 1)).map (fun i =>
      ((simulation (process1_step ⟨level_param, alpha1⟩ orc)
        (⟨start_price⟩, j * time_steps) i).1.price : ℝ))), ?_, ?_, ?_, ?_⟩
  · have hm := mapE_ok_of
      (fun j => np_fromiter (process1_row ⟨level_param, alpha1⟩ ⟨start_price⟩ orc
        (j * time_steps) time_steps) (some ()))
      (fun j => (List.range (time_steps + 1)).map (fun i =>
        ((simulation (process1_step ⟨level_param, alpha1⟩ orc)
          (⟨start_price⟩, j * time_steps) i).1.price : ℝ)))
      (List.range (k + 1))
      (fun j _ => process1_row_eq ⟨level_param, alpha1⟩ ⟨start_price⟩ orc
        (j * time_steps) time_steps)
    rw [process1_price_traces, hm]
    show np_vstack _ = _
    refine np_vstack_ok _ (time_steps + 1) ?_ ?_
    · simp
    · intro row hrow
      obtain ⟨j, -, rfl⟩ := List.mem_map.mp hrow
      exact process1_row_vals_length _ _ _ _ _
  · rw [List.length_map, List.length_range]
  · intro row hrow
    obtain ⟨j, -, rfl⟩ := List.mem_map.mp hrow
    exact process1_row_vals_length _ _ _ _ _
  · intro row hrow
    obtain ⟨j, -, rfl⟩ := List.mem_map.mp hrow
    exact process1_row_vals_head _ _ _ _ _
